import Mathlib

/-!
# Verification of the book-summary acquisition core (`src/data_processing.py`)

Shallow embedding of the summary-acquisition subsystem: the rate-limited
fetcher (`fetch_by_isbn`), the match scorer and summary resolver
(`fetch_book_summary`), and the batch orchestrator / resumable cache
(`process_book_summaries`).

Modelling conventions:
* Python strings are sequences of code points, embedded as `List Char`
  (`PyStr`); `s.lower()`, `s.strip()`, `s.split(',')`, slicing `s[:2000]`
  and `' '.join(l)` become the corresponding list operations.
* The remote HTTP world is an explicit trace: each network request consumes
  the next element of a response list.  An exhausted trace (which can only
  happen through the unbounded 429 recursion of `fetch_by_isbn`, or a trace
  shorter than the number of issued requests) makes the run undefined,
  modelled by `Option`.
* Match scores.  The source computes `0.7 * title_score + 0.3 *
  author_score` over integer fuzz scores in `[0,100]` and compares the
  result with `75`.  Every such value is an exact multiple of `1/10`, so
  the embedding carries the score in tenths as a natural number:
  `combined_score_x10 = 7 * title_score + 3 * author_score`, with the
  acceptance test `>= 75` becoming `>= 750`.  This integer semantics agrees
  with exact decimal arithmetic everywhere (`n/10 ≥ 75 ↔ n ≥ 750`, and
  likewise for the strict best-score comparisons); the source's IEEE-double
  evaluation agrees with the exact value at every comparison except
  hairline representation effects at exact rational ties (e.g. the single
  integer pair `title = 96, author = 26`, whose exact value `75` rounds to
  the double `74.99999999999999`), which the embedding idealises away.
* `fuzz.ratio` (fuzzywuzzy backed by python-Levenshtein) equals
  `int(round(100 * (lensum - dist) / lensum))` where `dist` is the indel
  distance, i.e. the half-even rounding of `200 * llcs / lensum` with
  `llcs` the length of a longest common subsequence.
-/

/-- Python strings, as the sequence of their code points. -/
abbrev PyStr := List Char

/-- Python `s.lower()` (ASCII-faithful; the inputs of interest are ASCII). -/
def pyLower (s : PyStr) : PyStr := s.map Char.toLower

/-- Python `s.strip()`: drop whitespace from both ends. -/
def pyStrip (s : PyStr) : PyStr :=
  ((s.dropWhile Char.isWhitespace).reverse.dropWhile Char.isWhitespace).reverse

/-- Python truthiness of an optional string: `None` and `""` are falsy.
Used for `if isbn and pd.notna(isbn)`, `if author:`, `if isbn_result:`,
`if summary:` in the source. -/
def pyTruthy : Option PyStr → Bool
  | none => false
  | some s => !s.isEmpty

/-- Python `max(l, default=0)` over natural numbers. -/
def pyMax0 (l : List ℕ) : ℕ := l.foldl max 0

/-- Length of a longest common subsequence, computed with a fuel argument so
that the recursion is structural (the fuel `|s| + |t|` always suffices). -/
def llcsGo : ℕ → List Char → List Char → ℕ
  | 0, _, _ => 0
  | _ + 1, [], _ => 0
  | _ + 1, _ :: _, [] => 0
  | f + 1, a :: as, b :: bs =>
    if a = b then llcsGo f as bs + 1
    else max (llcsGo f (a :: as) bs) (llcsGo f as (b :: bs))

/-- Length of a longest common subsequence of two strings. -/
def llcs (s t : PyStr) : ℕ := llcsGo (s.length + t.length) s t

/-- Python `int(round(n / d))` for naturals (`d > 0` at every use site):
round half to even. -/
def natRoundHalfEven (n d : ℕ) : ℕ :=
  if 2 * (n % d) < d then n / d
  else if d < 2 * (n % d) then n / d + 1
  else if n / d % 2 = 0 then n / d else n / d + 1

/-- Embedding of `fuzz.ratio(s1, s2)`: `int(round(100 * ratio))` where `ratio` is the
normalized indel similarity `2 * llcs / (|s1| + |s2|)` (and `1.0` when both
strings are empty). -/
def fuzz_ratio (s t : PyStr) : ℕ :=
  if s.length + t.length = 0 then 100
  else natRoundHalfEven (200 * llcs s t) (s.length + t.length)

/-- The shapes a JSON `description` field can take (lines 158–163 and
232–236 of the source): a plain string, an object with an optional `value`
string, or a list of strings. -/
inductive Desc : Type where
  | str (s : PyStr)
  | obj (value : Option PyStr)
  | list (l : List PyStr)
deriving DecidableEq

/-- Normalisation of a `description` value (lines 159–163 / 233–236):
a dict is replaced by `description.get('value', '')`, a list by
`' '.join(description)`, a plain string is kept. -/
def normalize_description : Desc → PyStr
  | .str s => s
  | .obj v => v.getD []
  | .list l => List.intercalate [' '] l

/-- Helper: `data.get('description', '')` followed by normalisation: a missing
field behaves like the empty string. -/
def normalizeOpt (d : Option Desc) : PyStr :=
  (d.map normalize_description).getD []

/-- One HTTP response of the ISBN endpoint, as consumed by
`fetch_by_isbn`.  `ok d` is a 2xx response whose JSON body has the given
optional `description` field; `netError` covers timeouts
(`timeout = true`) and other non-HTTP request errors. -/
inductive IsbnResp : Type where
  | notFound
  | rateLimited
  | httpError (code : ℕ)
  | netError (timeout : Bool)
  | ok (description : Option Desc)
deriving DecidableEq

/-- The request-issuing loop of `fetch_by_isbn` (lines 137–171): each list
element answers one HTTP request.  Result: `none` if the response trace is
exhausted (the 429 branch re-issues the request by a recursive self-call,
so a trace of only 429s never produces a value), otherwise
`some (description?, number of requests issued)`. -/
def fetchByIsbnGo : List IsbnResp → Option (Option PyStr × ℕ)
  | [] => none
  | .notFound :: _ => some (none, 1)
  | .rateLimited :: rest => (fetchByIsbnGo rest).map fun p => (p.1, p.2 + 1)
  | .httpError _ :: _ => some (none, 1)
  | .netError _ :: _ => some (none, 1)
  | .ok d :: _ =>
    let desc := normalizeOpt d
    some (if desc.isEmpty then none else some (desc.take 2000), 1)

/-- Embedding of `fetch_by_isbn(isbn)` (lines 132–171), run against a response trace.
An absent/NaN/empty ISBN short-circuits to `None` with no request. -/
def fetch_by_isbn (isbn : Option PyStr) (resps : List IsbnResp) :
    Option (Option PyStr × ℕ) :=
  if pyTruthy isbn then fetchByIsbnGo resps else some (none, 0)

/-- Source constant `RETRY_COUNT = 3` (line 22): number of search attempts. -/
def RETRY_COUNT : ℕ := 3

/-- Source constant `MAX_SUMMARIES = 1000` (line 19). -/
def MAX_SUMMARIES : ℕ := 1000

/-- One search-API result document (an element of `data['docs']`):
`doc.get('title', '')`, `doc.get('author_name', [])`, and the optional
`description` field read off `best_match` on acceptance. -/
structure Doc : Type where
  title : PyStr
  author_name : List PyStr
  description : Option Desc
deriving DecidableEq

/-- One HTTP response of the search endpoint, as consumed by one attempt of
the retry loop of `fetch_book_summary` (lines 191–248). -/
inductive SearchResp : Type where
  | rateLimited
  | httpNotFound
  | httpError (code : ℕ)
  | netError (timeout : Bool)
  | ok (numFound : ℕ) (docs : List Doc)
deriving DecidableEq

/-- Source label of a resolution (the second component of
`fetch_book_summary`'s result). -/
inductive Source : Type where
  | isbn_search
  | title_search
  | not_found
deriving DecidableEq

/-- Embedding of `title_score` (line 220): fuzzy similarity of the lowercased query
title and candidate title. -/
def title_score (qtitle : PyStr) (doc : Doc) : ℕ :=
  fuzz_ratio (pyLower qtitle) (pyLower doc.title)

/-- Embedding of `author_score` (lines 221–222): if an author was given (truthy), the
maximum fuzzy similarity between the lowercased full query author string
and each lowercased candidate author name, `max(..., default=0)`;
otherwise `0`. -/
def author_score (qauthor : Option PyStr) (doc : Doc) : ℕ :=
  if pyTruthy qauthor then
    pyMax0 (doc.author_name.map fun a =>
      fuzz_ratio (pyLower (qauthor.getD [])) (pyLower a))
  else 0

/-- Embedding of `combined_score` (line 223), in tenths: the source's
`0.7 * title_score + 0.3 * author_score` is exactly
`combined_score_x10 / 10`. -/
def combined_score_x10 (qtitle : PyStr) (qauthor : Option PyStr) (doc : Doc) : ℕ :=
  7 * title_score qtitle doc + 3 * author_score qauthor doc

/-- Lines 225–227: replace the running best when the combined score is
strictly greater (ties keep the earlier candidate). -/
def updateBest (qtitle : PyStr) (qauthor : Option PyStr)
    (best : ℕ × Option Doc) (doc : Doc) : ℕ × Option Doc :=
  if best.1 < combined_score_x10 qtitle qauthor doc then
    (combined_score_x10 qtitle qauthor doc, some doc)
  else best

/-- The `for doc in data['docs']` loop (lines 216–227). -/
def scanDocs (qtitle : PyStr) (qauthor : Option PyStr)
    (best : ℕ × Option Doc) (docs : List Doc) : ℕ × Option Doc :=
  docs.foldl (updateBest qtitle qauthor) best

/-- The outcome of one `fetch_book_summary` call. -/
structure FetchResult : Type where
  /-- First returned component: the summary text or `None`. -/
  summary : Option PyStr
  /-- Second returned component: the source label. -/
  source : Source
  /-- How many search-API requests were issued. -/
  searchRequests : ℕ
  /-- How many warnings the final-attempt failure handler logged
  (lines 242–247). -/
  failureWarnings : ℕ
deriving DecidableEq

/-- Bookkeeping: one more search request was issued. -/
def addReq (w : ℕ) : Option FetchResult → Option FetchResult :=
  Option.map fun r =>
    { r with searchRequests := r.searchRequests + 1,
             failureWarnings := r.failureWarnings + w }

/-- The search retry loop of `fetch_book_summary`
(`for attempt in range(RETRY_COUNT)`, lines 191–250), with the running
best carried across attempts.  `remaining` counts the attempts still to
run (the current iteration is the last one iff `remaining = 0` after
peeling the constructor); each iteration issues one request, consuming the
head of the response trace.  A 429 sleeps and `continue`s (consuming the
attempt), a 404 or an empty result set `continue`s, a request error is
caught and `continue`s — logging a warning only on the last attempt, and
only for a timeout or for an `HTTPError` with status ≠ 404.  An attempt
with documents folds them into the running best; if then
`best_score >= 75 and best_match` (in tenths: `750 ≤ best`), the best
match's description is normalised and, if non-empty, returned truncated to
2000 characters with source `title_search`. -/
def searchGo (qtitle : PyStr) (qauthor : Option PyStr) :
    ℕ → List SearchResp → ℕ × Option Doc → Option FetchResult
  | 0, _, _ => some ⟨none, .not_found, 0, 0⟩
  | _ + 1, [], _ => none
  | remaining + 1, r :: rest, best =>
    match r with
    | .rateLimited => addReq 0 (searchGo qtitle qauthor remaining rest best)
    | .httpNotFound => addReq 0 (searchGo qtitle qauthor remaining rest best)
    | .httpError code =>
      addReq (if remaining = 0 ∧ code ≠ 404 then 1 else 0)
        (searchGo qtitle qauthor remaining rest best)
    | .netError timeout =>
      addReq (if remaining = 0 ∧ timeout then 1 else 0)
        (searchGo qtitle qauthor remaining rest best)
    | .ok numFound docs =>
      if numFound = 0 then addReq 0 (searchGo qtitle qauthor remaining rest best)
      else
        let best' := scanDocs qtitle qauthor best docs
        if 750 ≤ best'.1 then
          match best'.2 with
          | some bm =>
            let desc := normalizeOpt bm.description
            if desc.isEmpty then
              addReq 0 (searchGo qtitle qauthor remaining rest best')
            else some ⟨some (desc.take 2000), .title_search, 1, 0⟩
          | none => addReq 0 (searchGo qtitle qauthor remaining rest best')
        else addReq 0 (searchGo qtitle qauthor remaining rest best')

/-- The search request parameters (lines 183–186): `title`, and — when an
author was given — the first comma-separated part of the author string,
stripped. -/
structure SearchParams : Type where
  title : PyStr
  author : Option PyStr
deriving DecidableEq

/-- The `params` construction of the search attempt (lines 184–186). -/
def searchParamsOf (title : PyStr) (author : Option PyStr) : SearchParams :=
  ⟨title,
   if pyTruthy author then
     some (pyStrip (((author.getD []).splitOn ',').headD []))
   else none⟩

/-- Embedding of `fetch_book_summary(title, author, isbn)` (lines 174–250), run against
an ISBN-endpoint trace and a search-endpoint trace: ISBN attempt first
(when the ISBN is truthy), terminal on a truthy description with source
`isbn_search`; otherwise the search retry loop.  `none` means the run is
undefined on the given traces (unbounded 429 recursion in the ISBN path,
or a search trace shorter than the attempts executed). -/
def fetch_book_summary (title : PyStr) (author : Option PyStr)
    (isbn : Option PyStr) (isbnResps : List IsbnResp)
    (searchResps : List SearchResp) : Option FetchResult :=
  if pyTruthy isbn then
    match fetch_by_isbn isbn isbnResps with
    | none => none
    | some (isbnResult, _) =>
      if pyTruthy isbnResult then some ⟨isbnResult, .isbn_search, 0, 0⟩
      else searchGo title author RETRY_COUNT searchResps (0, none)
  else searchGo title author RETRY_COUNT searchResps (0, none)

/-- A catalog row as handed to the core (`book_id`, `title`, `authors`,
`isbn`); `authors` is always a string in the cleaned catalog, `isbn` may
be NaN (`none`) or empty. -/
structure Book : Type where
  book_id : ℕ
  title : PyStr
  authors : PyStr
  isbn : Option PyStr
deriving DecidableEq

/-- One row of the summary cache
(schema `book_id, title, authors, isbn, summary, source`, line 260). -/
structure Entry : Type where
  book_id : ℕ
  title : PyStr
  authors : PyStr
  isbn : Option PyStr
  summary : PyStr
  source : Source
deriving DecidableEq

/-- The cache row built from a resolved book (lines 289–296). -/
def mkEntry (b : Book) (summary : PyStr) (source : Source) : Entry :=
  ⟨b.book_id, b.title, b.authors, b.isbn, summary, source⟩

/-- Embedding of `drop_duplicates('book_id')` with the default `keep='first'`
(line 303), written with an accumulator of the ids already seen so that
the recursion is structural. -/
def dedupGo (seen : List ℕ) : List Entry → List Entry
  | [] => []
  | e :: rest =>
    if e.book_id ∈ seen then dedupGo seen rest
    else e :: dedupGo (e.book_id :: seen) rest

/-- The deduplication of `pd.concat([...]).drop_duplicates('book_id')`: keep
the first occurrence of every `book_id`, preserving order. -/
def dedupByBookId (l : List Entry) : List Entry := dedupGo [] l

/-- Embedding of `pd.merge(books_df, cache_df, on='book_id', how='left')`
(lines 267, 311): every catalog row paired with each cache row of the same
`book_id`, or with `none` when there is no match. -/
def joinLeft (books : List Book) (cache : List Entry) :
    List (Book × Option Entry) :=
  books.flatMap fun b =>
    match cache.filter (fun e => e.book_id == b.book_id) with
    | [] => [(b, none)]
    | es => es.map fun e => (b, some e)

/-- Embedding of `books_df[~books_df['book_id'].isin(cache_df['book_id'])]` (line 271):
the catalog rows whose `book_id` is not in the cache. -/
def remainingBooks (books : List Book) (cache : List Entry) : List Book :=
  books.filter fun b => !cache.any fun e => e.book_id == b.book_id

/-- The count `min(remaining_summaries, len(books_to_process))` (lines 270–272):
how many books this run samples. -/
def batchCount (books : List Book) (cache : List Entry) (maxS : ℕ) : ℕ :=
  min (maxS - cache.length) (remainingBooks books cache).length

/-- Lines 288–296: keep only the truthy summaries, building cache rows.
The pairs are (book, resolution result) in batch order. -/
def summariesToEntries (pairs : List (Book × FetchResult)) : List Entry :=
  pairs.filterMap fun p =>
    match p.2.summary with
    | some s => if s.isEmpty then none else some (mkEntry p.1 s p.2.source)
    | none => none

/-- What one run of `process_book_summaries` produces. -/
structure ProcessOut : Type where
  /-- The returned merged table (catalog left-joined with the cache). -/
  result : List (Book × Option Entry)
  /-- The cache contents after the run (the file is rewritten only when
  there are new entries, line 301). -/
  written : List Entry
  /-- How many books were driven through `fetch_book_summary`. -/
  fetches : ℕ
deriving DecidableEq

/-- Embedding of `process_book_summaries(books_df, cache_path, max_summaries)`
(lines 253–318).  `cache` is the loaded cache, `sample` stands for the
pandas random sampler `df.sample(n)` (its randomness is an input of the
embedding), and `net` gives each book the response traces its resolution
consumes.  `none` means some selected book's resolution was undefined on
its traces. -/
def process_book_summaries (books : List Book) (cache : List Entry)
    (maxS : ℕ) (sample : List Book → ℕ → List Book)
    (net : Book → List IsbnResp × List SearchResp) : Option ProcessOut :=
  if maxS ≤ cache.length then some ⟨joinLeft books cache, cache, 0⟩
  else
    let toProcess := sample (remainingBooks books cache) (batchCount books cache maxS)
    match toProcess.mapM (fun b =>
        fetch_book_summary b.title (some b.authors) b.isbn (net b).1 (net b).2) with
    | none => none
    | some results =>
      let newEntries := summariesToEntries (toProcess.zip results)
      let written := if newEntries.isEmpty then cache
                     else dedupByBookId (cache ++ newEntries)
      some ⟨joinLeft books written, written, toProcess.length⟩

/-- All documents of a search response (if any) have a combined score
strictly below the acceptance threshold (`x < 750` in tenths is exactly
`x/10 < 75`). -/
def docsBelow (qtitle : PyStr) (qauthor : Option PyStr) : SearchResp → Bool
  | .ok _ docs => docs.all fun d => combined_score_x10 qtitle qauthor d < 750
  | _ => true

/-- A search response that the retry loop's `except` handler absorbs:
a timeout or other network error, or a hard HTTP status. -/
def isFailureResp : SearchResp → Bool
  | .netError _ => true
  | .httpError _ => true
  | _ => false

/-- Modelled from the spec's words for comparison (claim C2): the author
similarity as the claim states it — the maximum fuzzy similarity between
the *first comma-split part* of the query author string and each candidate
author name. -/
def author_score_claimed (qauthor : Option PyStr) (doc : Doc) : ℕ :=
  if pyTruthy qauthor then
    pyMax0 (doc.author_name.map fun a =>
      fuzz_ratio (pyLower (pyStrip (((qauthor.getD []).splitOn ',').headD [])))
        (pyLower a))
  else 0

/-- Modelled from the amended wording: the author similarity over the
*full* query author string (what lines 221–222 compute). -/
def author_score_full (qauthor : PyStr) (doc : Doc) : ℕ :=
  pyMax0 (doc.author_name.map fun a =>
    fuzz_ratio (pyLower qauthor) (pyLower a))

-- Basic sanity examples (concrete evaluations of the embedding).
example : fuzz_ratio "abcd".data "abcx".data = 75 := by decide
example : fuzz_ratio "a,b".data "a".data = 50 := by decide
example : fuzz_ratio "a".data "a".data = 100 := by decide
example : fetch_by_isbn (some "123".data) [.ok (some (.str "hi".data))]
    = some (some "hi".data, 1) := by decide
example : fetch_by_isbn none [.ok (some (.str "hi".data))] = some (none, 0) := by
  decide
example : fetch_by_isbn (some "123".data) [.rateLimited, .ok (some (.obj (some "v".data)))]
    = some (some "v".data, 2) := by decide
example : normalize_description (.list ["te".data, "xt".data]) = "te xt".data := by
  decide
example :
    fetch_book_summary "abcd".data (some "abcd".data) none []
      [.ok 1 [⟨"abcx".data, ["abcx".data], some (.str "x".data)⟩]]
    = some ⟨some "x".data, .title_search, 1, 0⟩ := by decide
example :
    fetch_book_summary "abcd".data none none []
      [.netError true, .httpNotFound, .netError false]
    = some ⟨none, .not_found, 3, 0⟩ := by decide
example :
    fetch_book_summary "abcd".data none none []
      [.netError false, .httpNotFound, .netError true]
    = some ⟨none, .not_found, 3, 1⟩ := by decide
example :
    fetch_book_summary "abcd".data (some "a".data) (some "9".data)
      [.ok (some (.str "d".data))] [] = some ⟨some "d".data, .isbn_search, 0, 0⟩ := by
  decide

/-! ## Helper lemmas -/

theorem llcsGo_le (f : ℕ) : ∀ s t : List Char, llcsGo f s t ≤ min s.length t.length := by
  induction f with
  | zero => intro s t; simp [llcsGo]
  | succ f ih =>
    intro s t
    match s, t with
    | [], t => simp [llcsGo]
    | a :: as, [] => simp [llcsGo]
    | a :: as, b :: bs =>
      simp only [llcsGo, List.length_cons]
      split
      · have := ih as bs; omega
      · have h1 := ih (a :: as) bs
        have h2 := ih as (b :: bs)
        simp only [List.length_cons] at h1 h2
        omega

theorem natRoundHalfEven_le {n d k : ℕ} (hd : 0 < d) (h : n ≤ k * d) :
    natRoundHalfEven n d ≤ k := by
  have hq : n / d ≤ k := by
    have h' := Nat.div_le_div_right (c := d) h
    rwa [Nat.mul_div_cancel _ hd] at h'
  have hlt : d ≤ 2 * (n % d) → n / d < k := by
    intro hr
    rcases Nat.lt_or_ge (n / d) k with h' | h'
    · exact h'
    · exfalso
      have hqk : n / d = k := le_antisymm hq h'
      have hmod := Nat.div_add_mod n d
      rw [hqk, Nat.mul_comm] at hmod
      omega
  unfold natRoundHalfEven
  split
  · exact hq
  · rename_i h1
    have := hlt (by omega)
    split
    · omega
    · split <;> omega

theorem fuzz_ratio_le_100 (s t : PyStr) : fuzz_ratio s t ≤ 100 := by
  unfold fuzz_ratio
  split
  · exact le_refl 100
  · rename_i hlen
    apply natRoundHalfEven_le (by omega)
    have hl := llcsGo_le (s.length + t.length) s t
    simp only [llcs]
    omega

theorem title_score_le_100 (qt : PyStr) (d : Doc) : title_score qt d ≤ 100 :=
  fuzz_ratio_le_100 _ _

theorem combined_le_of_no_author (qt : PyStr) (qa : Option PyStr) (d : Doc)
    (h : pyTruthy qa = false) :
    combined_score_x10 qt qa d = 7 * title_score qt d ∧
      combined_score_x10 qt qa d ≤ 700 := by
  have h0 : author_score qa d = 0 := by simp [author_score, h]
  constructor
  · simp [combined_score_x10, h0]
  · have := title_score_le_100 qt d
    simp only [combined_score_x10, h0]
    omega

theorem scanDocs_fst_lt {qt : PyStr} {qa : Option PyStr} {b : ℕ}
    (docs : List Doc) (best : ℕ × Option Doc) (hbest : best.1 < b)
    (hdocs : ∀ d ∈ docs, combined_score_x10 qt qa d < b) :
    (scanDocs qt qa best docs).1 < b := by
  induction docs generalizing best with
  | nil => simpa [scanDocs]
  | cons d ds ih =>
    simp only [scanDocs, List.foldl_cons]
    apply ih
    · unfold updateBest
      split
      · exact hdocs d (List.mem_cons_self d ds)
      · exact hbest
    · exact fun d' hd' => hdocs d' (List.mem_cons_of_mem d hd')

theorem addReq_isSome (w : ℕ) (o : Option FetchResult) :
    (addReq w o).isSome = o.isSome := by
  cases o <;> simp [addReq]

theorem addReq_eq_some {w : ℕ} {o : Option FetchResult} {r : FetchResult}
    (h : addReq w o = some r) :
    ∃ r0, o = some r0 ∧ r.summary = r0.summary ∧ r.source = r0.source ∧
      r.searchRequests = r0.searchRequests + 1 ∧
      r.failureWarnings = r0.failureWarnings + w := by
  cases o with
  | none => simp [addReq] at h
  | some r0 =>
    refine ⟨r0, rfl, ?_⟩
    have h' : some (FetchResult.mk r0.summary r0.source (r0.searchRequests + 1)
        (r0.failureWarnings + w)) = some r := by
      simpa [addReq] using h
    injection h' with h'
    rw [← h']
    simp

theorem searchGo_isSome (qt : PyStr) (qa : Option PyStr) :
    ∀ (n : ℕ) (resps : List SearchResp) (best : ℕ × Option Doc),
      n ≤ resps.length → (searchGo qt qa n resps best).isSome := by
  intro n
  induction n with
  | zero => intro resps best _; simp [searchGo]
  | succ n ih =>
    intro resps best hlen
    match resps with
    | [] => simp at hlen
    | r :: rest =>
      have hr : n ≤ rest.length := by simpa using hlen
      cases r with
      | rateLimited => simpa [searchGo, addReq_isSome] using ih rest best hr
      | httpNotFound => simpa [searchGo, addReq_isSome] using ih rest best hr
      | httpError code => simpa [searchGo, addReq_isSome] using ih rest best hr
      | netError timeout => simpa [searchGo, addReq_isSome] using ih rest best hr
      | ok numFound docs =>
        simp only [searchGo]
        split
        · simpa [addReq_isSome] using ih rest best hr
        · split
          · split
            · split
              · simpa [addReq_isSome] using ih rest _ hr
              · simp
            · simpa [addReq_isSome] using ih rest _ hr
          · simpa [addReq_isSome] using ih rest _ hr

theorem take_ne_nil_of_ne_nil {s : PyStr} (h : s ≠ []) : s.take 2000 ≠ [] := by
  cases s with
  | nil => exact absurd rfl h
  | cons a t => simp [List.take]

theorem searchGo_inv (qt : PyStr) (qa : Option PyStr) :
    ∀ (n : ℕ) (resps : List SearchResp) (best : ℕ × Option Doc)
      (out : FetchResult), searchGo qt qa n resps best = some out →
      (out.summary = none ∧ out.source = .not_found) ∨
      (∃ s, out.summary = some s ∧ out.source = .title_search ∧
        s ≠ [] ∧ s.length ≤ 2000) := by
  intro n
  induction n with
  | zero =>
    intro resps best out h
    simp only [searchGo] at h
    injection h with h
    rw [← h]
    left; exact ⟨rfl, rfl⟩
  | succ n ih =>
    intro resps best out h
    match resps with
    | [] => simp [searchGo] at h
    | r :: rest =>
      have step : ∀ (best' : ℕ × Option Doc),
          addReq 0 (searchGo qt qa n rest best') = some out →
          (out.summary = none ∧ out.source = .not_found) ∨
          (∃ s, out.summary = some s ∧ out.source = .title_search ∧
            s ≠ [] ∧ s.length ≤ 2000) := by
        intro best' haddr
        obtain ⟨r0, hr0, hsum, hsrc, -, -⟩ := addReq_eq_some haddr
        rw [hsum, hsrc]
        exact ih rest best' r0 hr0
      cases r with
      | rateLimited => exact step best (by simpa [searchGo] using h)
      | httpNotFound => exact step best (by simpa [searchGo] using h)
      | httpError code =>
        simp only [searchGo] at h
        obtain ⟨r0, hr0, hsum, hsrc, -, -⟩ := addReq_eq_some h
        rw [hsum, hsrc]
        exact ih rest best r0 hr0
      | netError timeout =>
        simp only [searchGo] at h
        obtain ⟨r0, hr0, hsum, hsrc, -, -⟩ := addReq_eq_some h
        rw [hsum, hsrc]
        exact ih rest best r0 hr0
      | ok numFound docs =>
        simp only [searchGo] at h
        split at h
        · exact step best h
        · split at h
          · split at h
            · rename_i bm hbm
              split at h
              · exact step _ h
              · rename_i hdesc
                injection h with h
                rw [← h]
                right
                refine ⟨(normalizeOpt bm.description).take 2000, rfl, rfl, ?_, ?_⟩
                · refine take_ne_nil_of_ne_nil ?_
                  simpa using hdesc
                · rw [List.length_take]
                  exact Nat.min_le_left 2000 (normalizeOpt bm.description).length
            · exact step _ h
          · exact step _ h

theorem searchGo_below (qt : PyStr) (qa : Option PyStr) :
    ∀ (n : ℕ) (resps : List SearchResp) (best : ℕ × Option Doc)
      (out : FetchResult), best.1 < 750 →
      (∀ r ∈ resps, docsBelow qt qa r = true) →
      searchGo qt qa n resps best = some out →
      out.summary = none ∧ out.source = .not_found := by
  intro n
  induction n with
  | zero =>
    intro resps best out _ _ h
    simp only [searchGo] at h
    injection h with h
    rw [← h]
    exact ⟨rfl, rfl⟩
  | succ n ih =>
    intro resps best out hbest hall h
    match resps with
    | [] => simp [searchGo] at h
    | r :: rest =>
      have hrest : ∀ r' ∈ rest, docsBelow qt qa r' = true :=
        fun r' hr' => hall r' (List.mem_cons_of_mem r hr')
      have step : ∀ (w : ℕ) (best' : ℕ × Option Doc), best'.1 < 750 →
          addReq w (searchGo qt qa n rest best') = some out →
          out.summary = none ∧ out.source = .not_found := by
        intro w best' hb' haddr
        obtain ⟨r0, hr0, hsum, hsrc, -, -⟩ := addReq_eq_some haddr
        rw [hsum, hsrc]
        exact ih rest best' r0 hb' hrest hr0
      cases r with
      | rateLimited => exact step 0 best hbest (by simpa [searchGo] using h)
      | httpNotFound => exact step 0 best hbest (by simpa [searchGo] using h)
      | httpError code => exact step _ best hbest (by simpa [searchGo] using h)
      | netError timeout => exact step _ best hbest (by simpa [searchGo] using h)
      | ok numFound docs =>
        have hdocs : ∀ d ∈ docs, combined_score_x10 qt qa d < 750 := by
          have := hall (.ok numFound docs) (List.mem_cons_self _ _)
          simpa [docsBelow, List.all_eq_true] using this
        have hscan : (scanDocs qt qa best docs).1 < 750 :=
          scanDocs_fst_lt docs best hbest hdocs
        simp only [searchGo] at h
        split at h
        · exact step 0 best hbest h
        · split at h
          · omega
          · exact step 0 _ hscan h

theorem searchGo_errors (qt : PyStr) (qa : Option PyStr) :
    ∀ (n : ℕ) (resps : List SearchResp) (best : ℕ × Option Doc),
      (∀ r ∈ resps, isFailureResp r = true) → n ≤ resps.length →
      ∃ w, searchGo qt qa n resps best = some ⟨none, .not_found, n, w⟩ ∧
        w ≤ 1 ∧ (n = 0 → w = 0) := by
  intro n
  induction n with
  | zero =>
    intro resps best _ _
    exact ⟨0, rfl, by omega, fun _ => rfl⟩
  | succ n ih =>
    intro resps best hall hlen
    match resps with
    | [] => simp at hlen
    | r :: rest =>
      have hrest : ∀ r' ∈ rest, isFailureResp r' = true :=
        fun r' hr' => hall r' (List.mem_cons_of_mem r hr')
      have hlen' : n ≤ rest.length := by simpa using hlen
      obtain ⟨w, hw, hw1, hw0⟩ := ih rest best hrest hlen'
      cases r with
      | rateLimited => exact absurd (hall _ (List.mem_cons_self _ _)) (by simp [isFailureResp])
      | httpNotFound => exact absurd (hall _ (List.mem_cons_self _ _)) (by simp [isFailureResp])
      | ok numFound docs => exact absurd (hall _ (List.mem_cons_self _ _)) (by simp [isFailureResp])
      | httpError code =>
        refine ⟨w + (if n = 0 ∧ code ≠ 404 then 1 else 0), ?_, ?_, by omega⟩
        · simp only [searchGo, hw, addReq, Option.map_some']
        · rcases Nat.eq_zero_or_pos n with h0 | h0
          · have := hw0 h0; split <;> omega
          · have : ¬(n = 0 ∧ code ≠ 404) := by omega
            rw [if_neg this]; omega
      | netError timeout =>
        refine ⟨w + (if n = 0 ∧ timeout then 1 else 0), ?_, ?_, by omega⟩
        · simp only [searchGo, hw, addReq, Option.map_some']
        · rcases Nat.eq_zero_or_pos n with h0 | h0
          · have := hw0 h0; split <;> omega
          · have : ¬(n = 0 ∧ timeout = true) := by
              rintro ⟨h', -⟩; omega
            rw [if_neg this]; omega

theorem le_threshold_iff (x : ℕ) : (75 : ℚ) ≤ (x : ℚ) / 10 ↔ 750 ≤ x := by
  have h10 : (0 : ℚ) < 10 := by norm_num
  have h75 : (75 : ℚ) * 10 = ((750 : ℕ) : ℚ) := by norm_num
  rw [le_div_iff₀ h10, h75, Nat.cast_le]

theorem lt_threshold_iff (x : ℕ) : (x : ℚ) / 10 < 75 ↔ x < 750 := by
  have h10 : (0 : ℚ) < 10 := by norm_num
  have h75 : (75 : ℚ) * 10 = ((750 : ℕ) : ℚ) := by norm_num
  rw [div_lt_iff₀ h10, h75, Nat.cast_lt]

theorem docsBelow_of_no_author (qt : PyStr) (qa : Option PyStr)
    (h : pyTruthy qa = false) (r : SearchResp) : docsBelow qt qa r = true := by
  cases r with
  | ok numFound docs =>
    simp only [docsBelow, List.all_eq_true]
    intro d _
    have := (combined_le_of_no_author qt qa d h).2
    simp only [decide_eq_true_eq]
    omega
  | rateLimited => rfl
  | httpNotFound => rfl
  | httpError code => rfl
  | netError timeout => rfl

/-! ## Claim theorems -/

/-- C1: On the search path of the resolver, an attempt whose running best
candidate reaches a combined score of exactly 75 or greater
(`(best/10 : ℚ) ≥ 75`, i.e. `750 ≤ best` in tenths) with a non-empty
normalised description is accepted and returned with source
`title_search`; and whenever every candidate of every attempt scores
strictly below 75, the search result is discarded and the call returns
`(absent, not_found)` — even if such a candidate carried a description.
The last conjunct records that this `searchGo` loop is exactly the search
path of `fetch_book_summary`. -/
theorem claim_C1 :
    (∀ (qt : PyStr) (qa : Option PyStr) (best : ℕ × Option Doc)
       (numFound : ℕ) (docs : List Doc) (rest : List SearchResp)
       (remaining : ℕ) (bm : Doc),
       numFound ≠ 0 →
       (75 : ℚ) ≤ ((scanDocs qt qa best docs).1 : ℚ) / 10 →
       (scanDocs qt qa best docs).2 = some bm →
       normalizeOpt bm.description ≠ [] →
       searchGo qt qa (remaining + 1) (.ok numFound docs :: rest) best =
         some ⟨some ((normalizeOpt bm.description).take 2000), .title_search, 1, 0⟩) ∧
    (∀ (qt : PyStr) (qa : Option PyStr) (resps : List SearchResp)
       (out : FetchResult),
       (∀ r ∈ resps, docsBelow qt qa r = true) →
       searchGo qt qa RETRY_COUNT resps (0, none) = some out →
       out.summary = none ∧ out.source = .not_found) ∧
    (∀ (t : PyStr) (a : Option PyStr) (itr : List IsbnResp)
       (resps : List SearchResp), pyTruthy none = false →
       fetch_book_summary t a none itr resps =
         searchGo t a RETRY_COUNT resps (0, none)) := by
  refine ⟨?_, ?_, ?_⟩
  · intro qt qa best numFound docs rest remaining bm hnf hscore hbm hdesc
    have h750 : 750 ≤ (scanDocs qt qa best docs).1 :=
      (le_threshold_iff _).mp hscore
    have hdesc' : ¬((normalizeOpt bm.description).isEmpty = true) := by
      simpa using hdesc
    simp only [searchGo]
    rw [if_neg hnf, if_pos h750, hbm]
    simp only [if_neg hdesc']
  · intro qt qa resps out hall h
    exact searchGo_below qt qa RETRY_COUNT resps (0, none) out (by omega) hall h
  · intro t a itr resps _
    simp [fetch_book_summary, pyTruthy]

/-- Witness for C1: a boundary candidate whose combined score is exactly
75 (title similarity 75, author similarity 75) is accepted with source
`title_search`; and a run whose only candidate scores 0 — though it has a
description — ends in `(absent, not_found)`. -/
theorem claim_C1_witness :
    searchGo "abcd".data (some "abcd".data) 3
        [.ok 1 [⟨"abcx".data, ["abcx".data], some (.str "x".data)⟩]] (0, none) =
      some ⟨some (("x".data).take 2000), .title_search, 1, 0⟩ ∧
    ((FetchResult.mk none .not_found 3 1).summary = none ∧
      (FetchResult.mk none .not_found 3 1).source = .not_found) := by
  constructor
  · have h := claim_C1.1 "abcd".data (some "abcd".data) (0, none) 1
      [⟨"abcx".data, ["abcx".data], some (.str "x".data)⟩] [] 2
      ⟨"abcx".data, ["abcx".data], some (.str "x".data)⟩
      (by decide)
      (by rw [show (scanDocs "abcd".data (some "abcd".data) (0, none)
          [⟨"abcx".data, ["abcx".data], some (.str "x".data)⟩]).1 = 750 from by decide]
          norm_num)
      (by decide) (by decide)
    exact h
  · exact claim_C1.2.1 "abcd".data none
      [.ok 1 [⟨"zzzz".data, [], some (.str "d".data)⟩], .httpNotFound, .netError true]
      (FetchResult.mk none .not_found 3 1) (by decide) (by decide)

/-- C9: With no (truthy) query author, the author similarity is 0 but
still weighted at its fixed 0.3 coefficient, so every candidate's combined
score equals `0.7 × title_similarity` and is at most 70 (`≤ 700` in
tenths, i.e. `≤ 70` as a rational); since 70 < 75, a resolver call with a
falsy author can never return with source `title_search`. -/
theorem claim_C9 (qt : PyStr) (qa : Option PyStr) (h : pyTruthy qa = false) :
    (∀ d : Doc,
      ((combined_score_x10 qt qa d : ℚ) / 10 =
        (7 : ℚ) / 10 * title_score qt d + (3 : ℚ) / 10 * author_score qa d) ∧
      author_score qa d = 0 ∧
      combined_score_x10 qt qa d = 7 * title_score qt d ∧
      (combined_score_x10 qt qa d : ℚ) / 10 ≤ 70) ∧
    (∀ (isbn : Option PyStr) (itr : List IsbnResp) (resps : List SearchResp)
       (out : FetchResult),
       fetch_book_summary qt qa isbn itr resps = some out →
       out.source ≠ .title_search) := by
  constructor
  · intro d
    have h0 : author_score qa d = 0 := by simp [author_score, h]
    obtain ⟨heq, hle⟩ := combined_le_of_no_author qt qa d h
    refine ⟨?_, h0, heq, ?_⟩
    · rw [combined_score_x10]
      push_cast
      ring
    · rw [div_le_iff₀ (by norm_num : (0:ℚ) < 10)]
      have : ((combined_score_x10 qt qa d : ℕ) : ℚ) ≤ ((700 : ℕ) : ℚ) := by
        exact_mod_cast hle
      calc ((combined_score_x10 qt qa d : ℕ) : ℚ) ≤ ((700 : ℕ) : ℚ) := this
        _ = 70 * 10 := by norm_num
  · intro isbn itr resps out hout
    have hsearch : ∀ (b : ℕ × Option Doc), b.1 < 750 →
        searchGo qt qa RETRY_COUNT resps b = some out →
        out.source ≠ .title_search := by
      intro b hb hs
      have := searchGo_below qt qa RETRY_COUNT resps b out hb
        (fun r _ => docsBelow_of_no_author qt qa h r) hs
      rw [this.2]
      intro hc
      exact Source.noConfusion hc
    unfold fetch_book_summary at hout
    split at hout
    · split at hout
      · exact absurd hout (by simp)
      · split at hout
        · injection hout with hout
          rw [← hout]
          intro hc
          exact Source.noConfusion hc
        · exact hsearch (0, none) (by omega) hout
    · exact hsearch (0, none) (by omega) hout

/-- Witness for C9: with no author, an exact title match still scores only
70 and a full run returns `not_found`, not `title_search`. -/
theorem claim_C9_witness :
    ((combined_score_x10 "abcd".data none ⟨"abcd".data, [], some (.str "x".data)⟩ : ℚ) / 10 ≤ 70) ∧
    (FetchResult.mk none .not_found 3 0).source ≠ .title_search := by
  constructor
  · exact ((claim_C9 "abcd".data none rfl).1 ⟨"abcd".data, [], some (.str "x".data)⟩).2.2.2
  · exact (claim_C9 "abcd".data none rfl).2 none []
      [.ok 1 [⟨"abcd".data, [], some (.str "x".data)⟩], .httpNotFound, .httpNotFound]
      (FetchResult.mk none .not_found 3 0) (by decide)

/-- C8: The resolver never propagates an error: whenever the ISBN attempt
terminates and the trace answers every attempt of the bounded retry loop,
the call returns a value (totality); and when every search attempt fails
with a network/timeout/HTTP error (and the ISBN path yielded nothing), the
attempts are exhausted and the call returns `(absent, not_found)`, with at
most one warning logged — the final attempt's. -/
theorem claim_C8 :
    (∀ (t : PyStr) (a isbn : Option PyStr) (itr : List IsbnResp)
       (resps : List SearchResp),
       (pyTruthy isbn = true → (fetch_by_isbn isbn itr).isSome) →
       RETRY_COUNT ≤ resps.length →
       (fetch_book_summary t a isbn itr resps).isSome) ∧
    (∀ (t : PyStr) (a isbn : Option PyStr) (itr : List IsbnResp)
       (resps : List SearchResp),
       (pyTruthy isbn = false ∨ ∃ c, fetch_by_isbn isbn itr = some (none, c)) →
       (∀ r ∈ resps, isFailureResp r = true) →
       resps.length = RETRY_COUNT →
       ∃ w ≤ 1, fetch_book_summary t a isbn itr resps =
         some ⟨none, .not_found, RETRY_COUNT, w⟩) := by
  constructor
  · intro t a isbn itr resps hisbn hlen
    unfold fetch_book_summary
    split
    · rename_i ht
      obtain ⟨p, hp⟩ := Option.isSome_iff_exists.mp (hisbn ht)
      rw [hp]
      obtain ⟨ir, c⟩ := p
      dsimp only
      split
      · simp
      · exact searchGo_isSome t a RETRY_COUNT resps (0, none) hlen
    · exact searchGo_isSome t a RETRY_COUNT resps (0, none) hlen
  · intro t a isbn itr resps hreach hall hlen
    obtain ⟨w, hw, hw1, -⟩ := searchGo_errors t a RETRY_COUNT resps (0, none)
      hall (by omega)
    refine ⟨w, hw1, ?_⟩
    unfold fetch_book_summary
    split
    · rename_i ht
      rcases hreach with hf | ⟨c, hc⟩
      · rw [ht] at hf
        exact absurd hf (by simp)
      · rw [hc]
        dsimp only
        rw [if_neg (by simp [pyTruthy])]
        exact hw
    · exact hw

/-- Witness for C8: with no ISBN and three failing attempts the resolver
returns a value, namely `(absent, not_found)` with one warning. -/
theorem claim_C8_witness :
    (fetch_book_summary "t".data none none []
      [.netError false, .httpError 500, .netError true]).isSome ∧
    ∃ w ≤ 1, fetch_book_summary "t".data none none []
      [.netError false, .httpError 500, .netError true] =
        some ⟨none, .not_found, RETRY_COUNT, w⟩ := by
  constructor
  · exact claim_C8.1 "t".data none none []
      [.netError false, .httpError 500, .netError true]
      (fun h => by simp [pyTruthy] at h) (by decide)
  · exact claim_C8.2 "t".data none none []
      [.netError false, .httpError 500, .netError true]
      (Or.inl rfl) (by decide) (by decide)

/-- C7: ISBN-first strict ordering: with a truthy ISBN the resolver calls
`fetch_by_isbn` first, and a truthy description is returned immediately as
`(description, isbn_search)` with zero search-API requests issued; the
search path is reached only when the ISBN is falsy or the ISBN attempt
produced no (truthy) description. -/
theorem claim_C7 :
    (∀ (t : PyStr) (a isbn : Option PyStr) (itr : List IsbnResp)
       (resps : List SearchResp) (d : PyStr) (c : ℕ),
       pyTruthy isbn = true → fetch_by_isbn isbn itr = some (some d, c) →
       d ≠ [] →
       fetch_book_summary t a isbn itr resps =
         some ⟨some d, .isbn_search, 0, 0⟩) ∧
    (∀ (t : PyStr) (a isbn : Option PyStr) (itr : List IsbnResp)
       (resps : List SearchResp) (out : FetchResult),
       fetch_book_summary t a isbn itr resps = some out →
       out.source ≠ .isbn_search →
       pyTruthy isbn = false ∨ ∃ c,
         fetch_by_isbn isbn itr = some (none, c) ∨
         fetch_by_isbn isbn itr = some (some [], c)) := by
  constructor
  · intro t a isbn itr resps d c ht hfetch hd
    unfold fetch_book_summary
    rw [if_pos ht, hfetch]
    dsimp only
    rw [if_pos (by simpa [pyTruthy] using hd)]
  · intro t a isbn itr resps out hout hsrc
    unfold fetch_book_summary at hout
    split at hout
    · rename_i ht
      rcases h' : fetch_by_isbn isbn itr with - | ⟨ir, c⟩
      · rw [h'] at hout
        exact absurd hout (by simp)
      · rw [h'] at hout
        dsimp only at hout
        split at hout
        · rename_i hir
          injection hout with hout
          rw [← hout] at hsrc
          exact absurd rfl hsrc
        · rename_i hir
          cases ir with
          | none => exact Or.inr ⟨c, Or.inl rfl⟩
          | some s =>
            have hs : s = [] := by
              simpa [pyTruthy, List.isEmpty_iff] using hir
            rw [hs]
            exact Or.inr ⟨c, Or.inr rfl⟩
    · exact Or.inl (by rename_i h''; simpa using h'')

/-- Witness for C7: a successful ISBN lookup is terminal with source
`isbn_search` and zero search requests; a run without ISBN satisfies the
search-path characterisation. -/
theorem claim_C7_witness :
    fetch_book_summary "t".data none (some "1".data)
        [.ok (some (.str "d".data))] [] =
      some ⟨some "d".data, .isbn_search, 0, 0⟩ ∧
    (pyTruthy none = false ∨ ∃ c,
      fetch_by_isbn none [] = some (none, c) ∨
      fetch_by_isbn none [] = some (some [], c)) := by
  constructor
  · exact claim_C7.1 "t".data none (some "1".data) [.ok (some (.str "d".data))]
      [] "d".data 1 (by decide) (by decide) (by decide)
  · exact claim_C7.2 "t".data none none [] [.httpNotFound, .httpNotFound, .httpNotFound]
      (FetchResult.mk none .not_found 3 0) (by decide) (by decide)

theorem fetchByIsbnGo_inv :
    ∀ (itr : List IsbnResp) (s : PyStr) (c : ℕ),
      fetchByIsbnGo itr = some (some s, c) → s ≠ [] ∧ s.length ≤ 2000 := by
  intro itr
  induction itr with
  | nil => intro s c h; simp [fetchByIsbnGo] at h
  | cons r rest ih =>
    intro s c h
    cases r with
    | notFound => simp [fetchByIsbnGo] at h
    | httpError code => simp [fetchByIsbnGo] at h
    | netError timeout => simp [fetchByIsbnGo] at h
    | rateLimited =>
      simp only [fetchByIsbnGo, Option.map_eq_some'] at h
      obtain ⟨⟨p1, p2⟩, hp, heq⟩ := h
      have h1 : p1 = some s := congrArg Prod.fst heq
      rw [h1] at hp
      exact ih s p2 hp
    | ok d =>
      simp only [fetchByIsbnGo] at h
      split at h
      · simp at h
      · rename_i hne
        injection h with h
        have hs0 : some ((normalizeOpt d).take 2000) = some s := congrArg Prod.fst h
        have hs : (normalizeOpt d).take 2000 = s := by injection hs0
        constructor
        · rw [← hs]
          refine take_ne_nil_of_ne_nil ?_
          simpa using hne
        · rw [← hs, List.length_take]
          exact Nat.min_le_left _ _

/-- C4: Description normalisation: a plain string normalises to itself, an
object wrapping a `value` string to that string, and a list of strings to
the elements joined by single spaces; a successful fetch returns the
normalised description truncated to 2000 characters, an empty normalised
description is returned as absent (`None`), and every summary a fetch
does return is non-empty and at most 2000 characters long (on both the
ISBN path and the search path). -/
theorem claim_C4 :
    (∀ s : PyStr, normalize_description (.str s) = s) ∧
    (∀ v : PyStr, normalize_description (.obj (some v)) = v) ∧
    (normalize_description (.list ["te".data, "xt".data]) = "te xt".data ∧
      ∀ l : List PyStr, normalize_description (.list l) = List.intercalate [' '] l) ∧
    (∀ (isbn : Option PyStr) (d : Option Desc) (rest : List IsbnResp),
       pyTruthy isbn = true →
       fetch_by_isbn isbn (.ok d :: rest) =
         some (if (normalizeOpt d).isEmpty then none
               else some ((normalizeOpt d).take 2000), 1)) ∧
    (∀ (isbn : Option PyStr) (itr : List IsbnResp) (s : PyStr) (c : ℕ),
       fetch_by_isbn isbn itr = some (some s, c) →
       s ≠ [] ∧ s.length ≤ 2000) ∧
    (∀ (qt : PyStr) (qa : Option PyStr) (n : ℕ) (resps : List SearchResp)
       (best : ℕ × Option Doc) (out : FetchResult) (s : PyStr),
       searchGo qt qa n resps best = some out → out.summary = some s →
       s ≠ [] ∧ s.length ≤ 2000) := by
  refine ⟨fun s => rfl, fun v => rfl, ⟨by decide, fun l => rfl⟩, ?_, ?_, ?_⟩
  · intro isbn d rest ht
    unfold fetch_by_isbn
    rw [if_pos ht]
    rfl
  · intro isbn itr s c h
    unfold fetch_by_isbn at h
    split at h
    · exact fetchByIsbnGo_inv itr s c h
    · exact absurd h (by simp)
  · intro qt qa n resps best out s h hs
    rcases searchGo_inv qt qa n resps best out h with ⟨hnone, -⟩ | ⟨s', hs', -, hne, hlen⟩
    · rw [hnone] at hs
      exact absurd hs (by simp)
    · rw [hs'] at hs
      injection hs with hs
      rw [hs] at hne hlen
      exact ⟨hne, hlen⟩

/-- Witness for C4: a list-valued description is joined with spaces and
returned truncated; the summaries returned on both paths are non-empty
and within the 2000-character bound. -/
theorem claim_C4_witness :
    fetch_by_isbn (some "1".data) [.ok (some (.list ["te".data, "xt".data]))] =
      some (if (normalizeOpt (some (.list ["te".data, "xt".data]))).isEmpty then none
            else some ((normalizeOpt (some (.list ["te".data, "xt".data]))).take 2000), 1) ∧
    ("te xt".data ≠ [] ∧ ("te xt".data : PyStr).length ≤ 2000) ∧
    ("x".data ≠ [] ∧ ("x".data : PyStr).length ≤ 2000) := by
  refine ⟨?_, ?_, ?_⟩
  · exact claim_C4.2.2.2.1 (some "1".data) (some (.list ["te".data, "xt".data])) []
      (by decide)
  · exact claim_C4.2.2.2.2.1 (some "1".data)
      [.ok (some (.list ["te".data, "xt".data]))] "te xt".data 1 (by decide)
  · exact claim_C4.2.2.2.2.2 "abcd".data (some "abcd".data) 3
      [.ok 1 [⟨"abcx".data, ["abcx".data], some (.str "x".data)⟩]] (0, none)
      ⟨some "x".data, .title_search, 1, 0⟩ "x".data (by decide) rfl

/-- Counterexample to C3 as stated: one `fetch_by_isbn` call that is
answered 429, 429, 200 issues three requests — i.e. two automatic
re-issues, exceeding the claimed bound of one re-issue (at most two
requests) per call. -/
theorem claim_C3_cex :
    fetch_by_isbn (some "123".data)
        [.rateLimited, .rateLimited, .ok (some (.str "x".data))] =
      some (some "x".data, 3) ∧ ¬(3 ≤ 2) := by decide

/-- C3 (amended): on HTTP 429 `fetch_by_isbn` waits the fixed cooldown and
then re-issues the same request by calling itself recursively, with no
bound: `n` consecutive 429 responses followed by a success yield `n + 1`
issued requests, and a trace of only 429 responses never produces a result
(the recursion consumes the whole trace), so termination is not guaranteed
under persistent rate limiting. -/
theorem claim_C3 (isbn : Option PyStr) (ht : pyTruthy isbn = true)
    (n : ℕ) (d : Option Desc) :
    fetch_by_isbn isbn (List.replicate n .rateLimited ++ [.ok d]) =
      some (if (normalizeOpt d).isEmpty then none
            else some ((normalizeOpt d).take 2000), n + 1) ∧
    fetch_by_isbn isbn (List.replicate n .rateLimited) = none := by
  have hA : ∀ m : ℕ, fetchByIsbnGo (List.replicate m .rateLimited ++ [.ok d]) =
      some (if (normalizeOpt d).isEmpty then none
            else some ((normalizeOpt d).take 2000), m + 1) := by
    intro m
    induction m with
    | zero => rfl
    | succ m ih =>
      rw [List.replicate_succ, List.cons_append]
      simp only [fetchByIsbnGo, ih, Option.map_some']
  have hB : ∀ m : ℕ, fetchByIsbnGo (List.replicate m .rateLimited) = none := by
    intro m
    induction m with
    | zero => rfl
    | succ m ih =>
      rw [List.replicate_succ]
      simp only [fetchByIsbnGo, ih, Option.map_none']
  unfold fetch_by_isbn
  rw [if_pos ht, if_pos ht, hA n, hB n]
  exact ⟨rfl, rfl⟩

/-- Witness for the amended C3: two 429 responses then a success give
three requests; two 429 responses alone give no result. -/
theorem claim_C3_witness :
    fetch_by_isbn (some "1".data)
        (List.replicate 2 .rateLimited ++ [.ok (some (.str "x".data))]) =
      some (if (normalizeOpt (some (.str "x".data))).isEmpty then none
            else some ((normalizeOpt (some (.str "x".data))).take 2000), 2 + 1) ∧
    fetch_by_isbn (some "1".data) (List.replicate 2 .rateLimited) = none :=
  claim_C3 (some "1".data) (by decide) 2 (some (.str "x".data))

/-- Counterexample to C2 as stated: for query author `"a,b"` and a
candidate whose only author name is `"a"`, the similarity the claim
prescribes (first comma-split part, `"a"` vs `"a"`) is 100, but the code's
author similarity component (full string `"a,b"` vs `"a"`) is 50. -/
theorem claim_C2_cex :
    author_score (some "a,b".data) ⟨"t".data, ["a".data], none⟩ = 50 ∧
    author_score_claimed (some "a,b".data) ⟨"t".data, ["a".data], none⟩ = 100 ∧
    author_score (some "a,b".data) ⟨"t".data, ["a".data], none⟩ ≠
      author_score_claimed (some "a,b".data) ⟨"t".data, ["a".data], none⟩ := by
  decide

/-- C2 (amended): when a query author is given, the author similarity
component is the maximum fuzzy similarity between the *full* query author
string and each of the candidate's author names (0 if the candidate has
none); the first comma-split part of the author is used only as the search
request's `author` parameter; and the combined score is
`0.7 × title_similarity + 0.3 × author_similarity`. -/
theorem claim_C2 (qt qa : PyStr) (d : Doc) (h : pyTruthy (some qa) = true) :
    author_score (some qa) d = author_score_full qa d ∧
    (d.author_name = [] → author_score (some qa) d = 0) ∧
    ((combined_score_x10 qt (some qa) d : ℚ) / 10 =
      (0.7 : ℚ) * title_score qt d + (0.3 : ℚ) * author_score (some qa) d) ∧
    (searchParamsOf qt (some qa)).author =
      some (pyStrip ((qa.splitOn ',').headD [])) := by
  refine ⟨?_, ?_, ?_, ?_⟩
  · simp [author_score, author_score_full, h]
  · intro hnone
    simp [author_score, h, hnone, pyMax0]
  · rw [combined_score_x10]
    push_cast
    norm_num
    ring
  · simp [searchParamsOf, h]

/-- Witness for the amended C2: concrete evaluation at query author
`"a,b"` against a candidate with author names `["a"]`. -/
theorem claim_C2_witness :
    author_score (some "a,b".data) ⟨"t".data, ["a".data], none⟩ =
      author_score_full "a,b".data ⟨"t".data, ["a".data], none⟩ ∧
    (searchParamsOf "t".data (some "a,b".data)).author =
      some (pyStrip (("a,b".data.splitOn ',').headD [])) := by
  have h := claim_C2 "t".data "a,b".data ⟨"t".data, ["a".data], none⟩ (by decide)
  exact ⟨h.1, h.2.2.2⟩

theorem dedupGo_subset :
    ∀ (l : List Entry) (seen : List ℕ) (e : Entry), e ∈ dedupGo seen l → e ∈ l := by
  intro l
  induction l with
  | nil => intro seen e h; simp [dedupGo] at h
  | cons x rest ih =>
    intro seen e h
    simp only [dedupGo] at h
    split at h
    · exact List.mem_cons_of_mem x (ih seen e h)
    · rcases List.mem_cons.mp h with h' | h'
      · rw [h']; exact List.mem_cons_self x rest
      · exact List.mem_cons_of_mem x (ih _ e h')

theorem dedupGo_countP :
    ∀ (l : List Entry) (seen : List ℕ) (id : ℕ),
      (dedupGo seen l).countP (fun e => e.book_id == id) =
        if id ∈ seen then 0
        else if l.any (fun e => e.book_id == id) then 1 else 0 := by
  intro l
  induction l with
  | nil => intro seen id; simp [dedupGo]
  | cons x rest ih =>
    intro seen id
    simp only [dedupGo]
    by_cases hxi : x.book_id = id
    · subst hxi
      by_cases hx : x.book_id ∈ seen
      · rw [if_pos hx, ih seen x.book_id]
        simp [hx]
      · rw [if_neg hx, List.countP_cons, ih (x.book_id :: seen) x.book_id]
        simp [hx, List.any_cons]
    · have hbe : (x.book_id == id) = false := by simp [hxi]
      by_cases hx : x.book_id ∈ seen
      · rw [if_pos hx, ih seen id]
        simp [List.any_cons, hbe]
      · rw [if_neg hx, List.countP_cons, ih (x.book_id :: seen) id]
        have hmem : (id ∈ x.book_id :: seen) ↔ id ∈ seen := by
          simp only [List.mem_cons, or_iff_right_iff_imp]
          intro h
          exact absurd h.symm hxi
        simp [List.any_cons, hbe, hmem]

theorem dedupGo_find? :
    ∀ (l : List Entry) (seen : List ℕ) (id : ℕ), id ∉ seen →
      (dedupGo seen l).find? (fun e => e.book_id == id) =
        l.find? (fun e => e.book_id == id) := by
  intro l
  induction l with
  | nil => intro seen id _; simp [dedupGo]
  | cons x rest ih =>
    intro seen id hid
    simp only [dedupGo]
    by_cases hxi : x.book_id = id
    · subst hxi
      have hx : x.book_id ∉ seen := hid
      rw [if_neg hx]
      simp [List.find?]
    · have hbe : (x.book_id == id) = false := by simp [hxi]
      by_cases hx : x.book_id ∈ seen
      · rw [if_pos hx, ih seen id hid]
        simp [List.find?, hbe]
      · rw [if_neg hx]
        have hid' : id ∉ x.book_id :: seen := by
          simp only [List.mem_cons, not_or]
          exact ⟨fun h => hxi h.symm, hid⟩
        simp only [List.find?, hbe]
        exact ih _ id hid'

theorem mem_remainingBooks (books : List Book) (cache : List Entry) (b : Book) :
    b ∈ remainingBooks books cache ↔
      b ∈ books ∧ ∀ e ∈ cache, e.book_id ≠ b.book_id := by
  simp only [remainingBooks, List.mem_filter, Bool.not_eq_true']
  constructor
  · rintro ⟨hb, hany⟩
    refine ⟨hb, fun e he hc => ?_⟩
    rw [List.any_eq_false] at hany
    have := hany e he
    simp [hc] at this
  · rintro ⟨hb, hall⟩
    refine ⟨hb, ?_⟩
    rw [List.any_eq_false]
    intro e he
    simp [hall e he]

theorem mapM_option_zip :
    ∀ (xs : List Book) (f : Book → Option FetchResult) (ys : List FetchResult),
      xs.mapM f = some ys →
      ys.length = xs.length ∧ ∀ p ∈ xs.zip ys, f p.1 = some p.2 := by
  intro xs
  induction xs with
  | nil =>
    intro f ys h
    simp only [List.mapM_nil, pure, Option.some.injEq] at h
    rw [← h]
    simp
  | cons x rest ih =>
    intro f ys h
    rw [List.mapM_cons] at h
    simp only [bind, Option.bind_eq_some, pure, Option.some.injEq] at h
    obtain ⟨y, hy, ys', hys', hcons⟩ := h
    obtain ⟨hlen, hzip⟩ := ih f ys' hys'
    rw [← hcons]
    refine ⟨by simp [hlen], ?_⟩
    intro p hp
    rcases List.mem_cons.mp (by simpa [List.zip_cons_cons] using hp) with h' | h'
    · rw [h']; exact hy
    · exact hzip p h'

theorem mem_summariesToEntries (pairs : List (Book × FetchResult)) (e : Entry) :
    e ∈ summariesToEntries pairs →
      ∃ p ∈ pairs, ∃ s, p.2.summary = some s ∧ s ≠ [] ∧
        e = mkEntry p.1 s p.2.source := by
  intro h
  rw [summariesToEntries, List.mem_filterMap] at h
  obtain ⟨p, hp, hf⟩ := h
  rcases hs : p.2.summary with - | s
  · rw [hs] at hf; simp at hf
  · rw [hs] at hf
    change (if s.isEmpty then none else some (mkEntry p.1 s p.2.source)) = some e at hf
    by_cases hemp : s.isEmpty
    · rw [if_pos hemp] at hf; simp at hf
    · rw [if_neg hemp] at hf
      injection hf with hf
      exact ⟨p, hp, s, hs, by simpa [List.isEmpty_iff] using hemp, hf.symm⟩

theorem fetch_book_summary_inv (t : PyStr) (a isbn : Option PyStr)
    (itr : List IsbnResp) (resps : List SearchResp) (out : FetchResult)
    (s : PyStr) (hout : fetch_book_summary t a isbn itr resps = some out)
    (hs : out.summary = some s) :
    s ≠ [] ∧ (out.source = .isbn_search ∨ out.source = .title_search) := by
  have hsearch : ∀ b, searchGo t a RETRY_COUNT resps b = some out →
      s ≠ [] ∧ (out.source = .isbn_search ∨ out.source = .title_search) := by
    intro b hgo
    rcases searchGo_inv t a RETRY_COUNT resps b out hgo with
      ⟨hnone, -⟩ | ⟨s', hs', hsrc, hne, -⟩
    · rw [hnone] at hs
      exact absurd hs (by simp)
    · rw [hs'] at hs
      injection hs with hs
      rw [hs] at hne
      exact ⟨hne, Or.inr hsrc⟩
  unfold fetch_book_summary at hout
  split at hout
  · rcases h' : fetch_by_isbn isbn itr with - | ⟨ir, c⟩
    · rw [h'] at hout
      exact absurd hout (by simp)
    · rw [h'] at hout
      dsimp only at hout
      split at hout
      · rename_i hir
        injection hout with hout
        rw [← hout] at hs ⊢
        cases ir with
        | none => exact absurd hs (by simp)
        | some s0 =>
          have : s0 = s := by simpa using hs
          rw [← this]
          refine ⟨?_, Or.inl rfl⟩
          simpa [pyTruthy] using hir
      · exact hsearch (0, none) hout
  · exact hsearch (0, none) hout

/-- C5: The cache merge `pd.concat([cache, new]).drop_duplicates('book_id')`
keeps `book_id` unique: every `book_id` present in the union occurs exactly
once in the merged result, and for a `book_id` already present in the
existing cache the retained row is the cache's own first row for that id
(pre-existing entries win over same-run duplicates); the merged result
contains only rows of the union. -/
theorem claim_C5 (cache newE : List Entry) (id : ℕ) :
    ((cache ++ newE).any (fun e => e.book_id == id) = true →
      (dedupByBookId (cache ++ newE)).countP (fun e => e.book_id == id) = 1) ∧
    (cache.any (fun e => e.book_id == id) = true →
      (dedupByBookId (cache ++ newE)).find? (fun e => e.book_id == id) =
        cache.find? (fun e => e.book_id == id)) ∧
    (∀ e ∈ dedupByBookId (cache ++ newE), e ∈ cache ++ newE) := by
  refine ⟨?_, ?_, ?_⟩
  · intro hany
    rw [dedupByBookId, dedupGo_countP]
    simp [hany]
  · intro hany
    rw [dedupByBookId, dedupGo_find? _ [] id (by simp), List.find?_append]
    obtain ⟨a, ha, hpa⟩ := List.any_eq_true.mp hany
    have hsome : (cache.find? fun e => e.book_id == id).isSome :=
      List.find?_isSome.mpr ⟨a, ha, hpa⟩
    obtain ⟨v, hv⟩ := Option.isSome_iff_exists.mp hsome
    rw [hv]
    rfl
  · intro e he
    exact dedupGo_subset _ [] e he

/-- Witness for C5: merging a cache already holding `book_id = 5` with a
batch holding another `book_id = 5` row yields exactly one row for id 5 —
the pre-existing one. -/
theorem claim_C5_witness :
    (dedupByBookId ([⟨5, "t".data, "a".data, none, "s".data, .isbn_search⟩] ++
        [⟨5, "u".data, "b".data, none, "z".data, .title_search⟩])).countP
      (fun e => e.book_id == 5) = 1 ∧
    (dedupByBookId ([⟨5, "t".data, "a".data, none, "s".data, .isbn_search⟩] ++
        [⟨5, "u".data, "b".data, none, "z".data, .title_search⟩])).find?
      (fun e => e.book_id == 5) =
      List.find? (fun e => e.book_id == 5)
        [⟨5, "t".data, "a".data, none, "s".data, .isbn_search⟩] := by
  have h := claim_C5 [⟨5, "t".data, "a".data, none, "s".data, .isbn_search⟩]
    [⟨5, "u".data, "b".data, none, "z".data, .title_search⟩] 5
  exact ⟨h.1 (by decide), h.2.1 (by decide)⟩

/-- C6: Batch selection: when the loaded cache already holds at least
`max_summaries` entries the run performs no fetches and immediately
returns the catalog left-joined with the cache; otherwise the books
needing resolution are exactly the catalog rows whose `book_id` is absent
from the cache, and the run samples
`min(max_summaries - |cache|, |remaining|)` of them without replacement
(the selected batch is a subpermutation of the remaining set and its
length is exactly that minimum, which also equals the number of resolver
calls made). -/
theorem claim_C6 :
    (∀ (books : List Book) (cache : List Entry) (maxS : ℕ)
       (sample : List Book → ℕ → List Book)
       (net : Book → List IsbnResp × List SearchResp),
       maxS ≤ cache.length →
       process_book_summaries books cache maxS sample net =
         some ⟨joinLeft books cache, cache, 0⟩) ∧
    (∀ (books : List Book) (cache : List Entry) (b : Book),
       b ∈ remainingBooks books cache ↔
         b ∈ books ∧ ∀ e ∈ cache, e.book_id ≠ b.book_id) ∧
    (∀ (books : List Book) (cache : List Entry) (maxS : ℕ)
       (sample : List Book → ℕ → List Book)
       (net : Book → List IsbnResp × List SearchResp) (out : ProcessOut),
       cache.length < maxS →
       (∀ (l : List Book) (n : ℕ), n ≤ l.length →
         (sample l n).length = n ∧ (sample l n).Subperm l) →
       process_book_summaries books cache maxS sample net = some out →
       out.fetches = min (maxS - cache.length) (remainingBooks books cache).length ∧
       (sample (remainingBooks books cache) (batchCount books cache maxS)).Subperm
         (remainingBooks books cache)) := by
  refine ⟨?_, ?_, ?_⟩
  · intro books cache maxS sample net h
    unfold process_book_summaries
    rw [if_pos h]
  · intro books cache b
    exact mem_remainingBooks books cache b
  · intro books cache maxS sample net out hlt hsample hp
    have hbc : batchCount books cache maxS ≤ (remainingBooks books cache).length :=
      Nat.min_le_right _ _
    obtain ⟨hlen, hsub⟩ := hsample (remainingBooks books cache)
      (batchCount books cache maxS) hbc
    refine ⟨?_, hsub⟩
    unfold process_book_summaries at hp
    rw [if_neg (by omega)] at hp
    dsimp only at hp
    split at hp
    · exact absurd hp (by simp)
    · injection hp with hp
      rw [← hp]
      exact hlen

/-- Witness for C6: a full cache returns immediately with zero fetches;
with one uncached book, a budget of one and a `take`-sampler, the run
fetches exactly `min(1, 1) = 1` book sampled from the remaining set. -/
theorem claim_C6_witness :
    process_book_summaries [] [] 0 (fun l n => l.take n) (fun _ => ([], [])) =
      some ⟨joinLeft [] [], [], 0⟩ ∧
    ((⟨[(⟨1, "t".data, "a".data, none⟩, none)], [], 1⟩ : ProcessOut).fetches =
      min (1 - ([] : List Entry).length)
        (remainingBooks [⟨1, "t".data, "a".data, none⟩] []).length ∧
      ((remainingBooks [⟨1, "t".data, "a".data, none⟩] []).take
        (batchCount [⟨1, "t".data, "a".data, none⟩] [] 1)).Subperm
        (remainingBooks [⟨1, "t".data, "a".data, none⟩] [])) := by
  have hsample : ∀ (l : List Book) (n : ℕ), n ≤ l.length →
      ((fun (l : List Book) (n : ℕ) => l.take n) l n).length = n ∧
      ((fun (l : List Book) (n : ℕ) => l.take n) l n).Subperm l := by
    intro l n h
    exact ⟨by rw [List.length_take]; exact Nat.min_eq_left h,
      (List.take_sublist n l).subperm⟩
  constructor
  · exact claim_C6.1 [] [] 0 (fun l n => l.take n) (fun _ => ([], [])) (by decide)
  · exact claim_C6.2.2 [⟨1, "t".data, "a".data, none⟩] [] 1 (fun l n => l.take n)
      (fun _ => ([], [.httpNotFound, .httpNotFound, .httpNotFound]))
      ⟨[(⟨1, "t".data, "a".data, none⟩, none)], [], 1⟩
      (by decide) hsample (by decide)

/-- C10: Only successful resolutions are cached: every entry of the
written-back cache either was already in the loaded cache or is a new
entry with a non-empty summary and source `isbn_search` or `title_search`;
hence if the loaded cache carries no `not_found` rows, neither does the
written one.  A book whose resolution is `(absent, not_found)` contributes
no cache entry (an all-failing batch contributes nothing), and a catalog
book with no written entry for its id is still in the remaining-work set
of a future run. -/
theorem claim_C10 :
    (∀ (books : List Book) (cache : List Entry) (maxS : ℕ)
       (sample : List Book → ℕ → List Book)
       (net : Book → List IsbnResp × List SearchResp) (out : ProcessOut),
       process_book_summaries books cache maxS sample net = some out →
       (∀ e ∈ out.written, e ∈ cache ∨
         (e.summary ≠ [] ∧ (e.source = .isbn_search ∨ e.source = .title_search))) ∧
       ((∀ e ∈ cache, e.source ≠ .not_found) →
         ∀ e ∈ out.written, e.source ≠ .not_found) ∧
       (∀ b ∈ books, (∀ e ∈ out.written, e.book_id ≠ b.book_id) →
         b ∈ remainingBooks books out.written)) ∧
    (∀ pairs : List (Book × FetchResult),
       (∀ p ∈ pairs, p.2.summary = none) → summariesToEntries pairs = []) := by
  constructor
  · intro books cache maxS sample net out hp
    have hmain : ∀ e ∈ out.written, e ∈ cache ∨
        (e.summary ≠ [] ∧ (e.source = .isbn_search ∨ e.source = .title_search)) := by
      unfold process_book_summaries at hp
      split at hp
      · injection hp with hp
        rw [← hp]
        intro e he
        exact Or.inl he
      · dsimp only at hp
        split at hp
        · exact absurd hp (by simp)
        · rename_i results hm
          injection hp with hp
          rw [← hp]
          dsimp only
          by_cases hne : (summariesToEntries
              ((sample (remainingBooks books cache)
                (batchCount books cache maxS)).zip results)).isEmpty
          · rw [if_pos hne]
            intro e he
            exact Or.inl he
          · rw [if_neg hne]
            intro e he
            have he' := dedupGo_subset _ [] e he
            rcases List.mem_append.mp he' with hc | hn
            · exact Or.inl hc
            · obtain ⟨p, hpz, s, hsum, hsne, hee⟩ := mem_summariesToEntries _ e hn
              have hfet := (mapM_option_zip _ _ _ hm).2 p hpz
              have hinv := fetch_book_summary_inv p.1.title (some p.1.authors)
                p.1.isbn (net p.1).1 (net p.1).2 p.2 s hfet hsum
              refine Or.inr ⟨?_, ?_⟩
              · rw [hee]
                exact hinv.1
              · rw [hee]
                exact hinv.2
    refine ⟨hmain, ?_, ?_⟩
    · intro hcache e he
      rcases hmain e he with hc | ⟨-, hsrc⟩
      · exact hcache e hc
      · rcases hsrc with h | h <;> rw [h] <;> intro hc <;> exact Source.noConfusion hc
    · intro b hb hne
      exact (mem_remainingBooks books out.written b).mpr ⟨hb, hne⟩
  · intro pairs hall
    rw [summariesToEntries, List.filterMap_eq_nil_iff]
    intro p hp
    rw [hall p hp]

/-- Witness for C10: a run whose single book resolves to
`(absent, not_found)` writes nothing new, and an all-`None` result batch
produces no cache entries. -/
theorem claim_C10_witness :
    (∀ e ∈ (⟨[(⟨1, "t".data, "a".data, none⟩, none)], [], 1⟩ : ProcessOut).written,
      e ∈ ([] : List Entry) ∨
        (e.summary ≠ [] ∧ (e.source = .isbn_search ∨ e.source = .title_search))) ∧
    summariesToEntries [(⟨1, "t".data, "a".data, none⟩,
      ⟨none, .not_found, 3, 0⟩)] = [] := by
  constructor
  · exact (claim_C10.1 [⟨1, "t".data, "a".data, none⟩] [] 1 (fun l n => l.take n)
      (fun _ => ([], [.httpNotFound, .httpNotFound, .httpNotFound]))
      ⟨[(⟨1, "t".data, "a".data, none⟩, none)], [], 1⟩ (by decide)).1
  · exact claim_C10.2 [(⟨1, "t".data, "a".data, none⟩, ⟨none, .not_found, 3, 0⟩)]
      (by intro p hp; rcases List.mem_singleton.mp hp with h; rw [h])
